import Mathlib

/-!
Verification of the RSS feed-ingestion core (`rss.py`) and the web-search
extractor (`plugins/web_search.py`) of the Tater-Discord-WebUI repository.

The Python code is shallowly embedded:

* Python strings are `String` (or `List Char` where character-level loops
  are involved); `str.strip`, `str.splitlines`, `str.split()` and
  `str.rfind` are re-implemented over `List Char` so that all definitions
  evaluate by kernel reduction.
* Unix timestamps (floats produced by `time.mktime` / `time.time`) are
  modelled as `Int`; only their ordering matters to the code under study.
* The Redis hash `rss:feeds` is a finite map, modelled as
  `String → Option Int`; `hset` / `hdel` are the two write operations the
  code uses.
* `feedparser.parse` results are modelled by `ParsedFeed` (the `bozo`
  flag, optional feed title, and the entry list); a feed entry is
  `Entry` with an optional published timestamp (`none` models a missing
  `published_parsed` key).
* Raising Python exceptions is modelled with `Except String`; a
  `try/except` block that logs and continues maps an `Except.error` to a
  normal result.
* HTML documents parsed by BeautifulSoup are modelled by the rose tree
  `Html`; `decompose`, `get_text(separator="\n")` and `find` are given
  their document-order semantics.
-/

/-! ## Python string primitives over `List Char` -/

/-- Python `str.strip()`: drop leading and trailing whitespace. -/
def stripChars (u : List Char) : List Char :=
  ((u.dropWhile Char.isWhitespace).reverse.dropWhile Char.isWhitespace).reverse

/-- Python `str.strip()` as a `String → String` function. -/
def pyStrip (s : String) : String := ⟨stripChars s.data⟩

/-- Helper for Python `str.splitlines()`: split at newline characters.
(Python drops a final empty piece after a trailing newline; every caller
below filters out empty lines anyway, so the difference is immaterial.) -/
def splitLinesAux : List Char → List Char → List (List Char)
  | [], acc => [acc.reverse]
  | c :: rest, acc =>
      if c = '\n' then acc.reverse :: splitLinesAux rest []
      else splitLinesAux rest (c :: acc)

/-- Helper for Python `str.split()` with no separator: split on runs of
whitespace, dropping empty pieces. -/
def wordsAux : List Char → List Char → List (List Char)
  | [], acc => if acc.isEmpty then [] else [acc.reverse]
  | c :: rest, acc =>
      if c.isWhitespace then
        (if acc.isEmpty then wordsAux rest [] else acc.reverse :: wordsAux rest [])
      else wordsAux rest (c :: acc)

/-- Python `sep.join(pieces)` for a one-character separator. -/
def joinSep (sep : Char) : List (List Char) → List Char
  | [] => []
  | [l] => l
  | l :: ls => l ++ sep :: joinSep sep ls

/-- Python `s.rfind(c, 0, k)` scanning downward: highest index `i < k`
(and `i < s.length`) with `s[i] = c`, if any.  `rfindAux s c m` scans the
indices `m-1, m-2, …, 0`. -/
def rfindAux (s : List Char) (c : Char) : Nat → Option Nat
  | 0 => none
  | i + 1 => if s.get? i = some c then some i else rfindAux s c i

/-- Python `s.rfind(c, 0, k)` (with `none` for Python's `-1`). -/
def rfindIdx (s : List Char) (c : Char) (k : Nat) : Option Nat :=
  rfindAux s c (min k s.length)

/-! ## `split_message` (rss.py lines 70–84) -/

/-- The split point chosen by one iteration of the `split_message` loop:
the last newline before `chunk_size`, else the last space, else a hard
cut at `chunk_size`. -/
def splitPoint (s : List Char) (n : Nat) : Nat :=
  match rfindIdx s '\n' n with
  | some p => p
  | none =>
      match rfindIdx s ' ' n with
      | some p => p
      | none => n

/-- The `while len(message_content) > chunk_size` loop of `split_message`,
with explicit fuel (the loop need not terminate for `chunk_size = 0`, so
it is not total as written; `splitCore_isSome` below shows the fuel
`s.length + 1` used by `split_message` is never exhausted when
`1 ≤ n`). -/
def splitCore : Nat → List Char → Nat → Option (List (List Char))
  | 0, _, _ => none
  | fuel + 1, s, n =>
      if n < s.length then
        match splitCore fuel (stripChars (s.drop (splitPoint s n))) n with
        | some parts => some (s.take (splitPoint s n) :: parts)
        | none => none
      else some [s]

/-- `split_message(message_content, chunk_size)` from rss.py. -/
def split_message (s : List Char) (n : Nat) : List (List Char) :=
  (splitCore (s.length + 1) s n).getD [s]

/-! ## Feed store and RSS manager state (rss.py lines 89–143, 234–266) -/

/-- One feed entry as used by rss.py: `published = none` models a missing
`published_parsed` key; `some ts` models `time.mktime(entry.published_parsed)`. -/
structure Entry where
  title : String
  link : String
  published : Option Int
deriving DecidableEq

/-- The result of `feedparser.parse`: the `bozo` failure flag, the optional
feed title and the entry list. -/
structure ParsedFeed where
  bozo : Bool
  title : Option String
  entries : List Entry
deriving DecidableEq

/-- The Redis hash `rss:feeds`: feed URL ↦ last-processed timestamp. -/
def Store : Type := String → Option Int

/-- `redis.hset(feeds_key, url, v)`. -/
def hset (st : Store) (url : String) (v : Int) : Store :=
  fun u => if u = url then some v else st u

/-- `redis.hdel(feeds_key, url)`. -/
def hdel (st : Store) (url : String) : Store :=
  fun u => if u = url then none else st u

/-- The initial watermark computed by `RSSManager.add_feed` (lines 104–112):
starts at `0.0`, takes the maximum `published_parsed` over the entries when
the entry list is non-empty, and is the current wall-clock time only when
the entry list is empty. -/
def addFeedTs (now : Int) (entries : List Entry) : Int :=
  if entries.isEmpty then now
  else
    entries.foldl
      (fun last e =>
        match e.published with
        | some ts => if last < ts then ts else last
        | none => last)
      0

/-- `RSSManager.add_feed` (lines 97–120), with the Redis write assumed to
succeed: fails on a bozo parse, otherwise unconditionally `hset`s the
computed initial watermark and returns `True`. -/
def add_feed (st : Store) (url : String) (feed : ParsedFeed) (now : Int) :
    Bool × Store :=
  if feed.bozo then (false, st)
  else (true, hset st url (addFeedTs now feed.entries))

/-- `RSSManager.remove_feed` (lines 122–134). -/
def remove_feed (st : Store) (url : String) : Bool × Store :=
  match st url with
  | some _ => (true, hdel st url)
  | none => (false, st)

/-- The sort key used by `poll_feeds` (line 251):
`time.mktime(e.published_parsed) if 'published_parsed' in e else 0`. -/
def sortKey (e : Entry) : Int := e.published.getD 0

/-- The ordering relation underlying Python's stable `sorted` by `sortKey`. -/
def entryLe (a b : Entry) : Prop := sortKey a ≤ sortKey b

instance : DecidableRel entryLe :=
  fun a b => inferInstanceAs (Decidable (sortKey a ≤ sortKey b))

instance : IsTotal Entry entryLe :=
  ⟨fun a b => le_total (sortKey a) (sortKey b)⟩

instance : IsTrans Entry entryLe :=
  ⟨fun _ _ _ hab hbc => le_trans hab hbc⟩

/-- `sorted(parsed_feed.entries, key=…)` (lines 249–252): a stable sort by
`sortKey`, modelled with insertion sort (which is stable). -/
def sorted_entries (es : List Entry) : List Entry :=
  List.insertionSort entryLe es

/-- One iteration of the entry loop of `poll_feeds` (lines 253–260): the
accumulator holds the entries handed to `process_entry` so far and the
running `new_last_ts`.  Entries without `published_parsed` are skipped;
an entry is processed iff its timestamp is strictly above the `last_ts`
read at the start of the feed's pass. -/
def pollStepF (last_ts : Int) (acc : List Entry × Int) (e : Entry) :
    List Entry × Int :=
  match e.published with
  | none => acc
  | some ts =>
      if last_ts < ts then
        (acc.1 ++ [e], if acc.2 < ts then ts else acc.2)
      else acc

/-- The per-feed body of `poll_feeds` after a successful parse: returns
the list of entries passed to `process_entry` (in processing order) and
the final `new_last_ts`. -/
def pollFeedStep (last_ts : Int) (es : List Entry) : List Entry × Int :=
  (sorted_entries es).foldl (pollStepF last_ts) ([], last_ts)

/-- The watermark write at the end of a feed's pass (lines 261–263):
`if new_last_ts > last_ts: hset(feeds_key, url, new_last_ts)`. -/
def pollWrite (st : Store) (url : String) (es : List Entry) : Store :=
  match st url with
  | none => st
  | some last_ts =>
      if last_ts < (pollFeedStep last_ts es).2 then
        hset st url (pollFeedStep last_ts es).2
      else st

/-- The feed loop of one poll cycle (lines 238–265): each feed's body runs
inside `try/except`, so a per-feed error leaves the store as it was and
the loop continues with the next feed. -/
def pollCycle (st : Store) (feeds : List (String × Int))
    (body : Store → String → Int → Except String Store) : Store :=
  feeds.foldl
    (fun acc f =>
      match body acc f.1 f.2 with
      | Except.ok st2 => st2
      | Except.error _ => acc)
    st

/-! ## `process_entry` summary selection and delivery (rss.py lines 145–232) -/

/-- The summary-text selection of `process_entry` (lines 156–180).
`article_text` is the `fetch_web_summary` result (`none` for a fetch
failure; Python's `if not article_text` also treats the empty string as a
failure).  `summarizer` is the Ollama call: `Except.error e` models a
raised exception with message `e`, `Except.ok c` a response whose content
is `c`.  Returns the chosen `summary_text` and whether the summarizer was
invoked. -/
def summarySelect (article_text : Option String)
    (summarizer : Except String String) : String × Bool :=
  match article_text with
  | none => ("Could not retrieve a summary for this article.", false)
  | some a =>
      if a = "" then ("Could not retrieve a summary for this article.", false)
      else
        match summarizer with
        | Except.error e => ("Error summarizing article: " ++ e, true)
        | Except.ok content =>
            let s := pyStrip content
            (if s = "" then "Failed to generate a summary from the article." else s,
             true)

/-- The outcome of the delivery part of `process_entry`. -/
structure DeliveryTrace where
  discordDelivered : Bool
  telegramAttempted : Bool
  telegramDelivered : Bool
deriving DecidableEq

/-- The delivery step of `process_entry` (lines 195–232).  `channelFound`
models `bot.get_channel` returning a channel; `discordSend` the chunk
sends to that channel; `telegramOn` the conjunction "plugin enabled and
bot token and chat id configured"; `telegramSend` the HTTP post.  Each
sink's work sits in its own `try/except` that logs and continues, so a
sink exception never escapes `process_entry`: the result is always
`Except.ok`. -/
def deliver (channelFound : Bool) (discordSend : Except String Unit)
    (telegramOn : Bool) (telegramSend : Except String Unit) :
    Except String DeliveryTrace :=
  let discordDelivered :=
    if channelFound then
      match discordSend with
      | Except.ok _ => true
      | Except.error _ => false
    else false
  if telegramOn then
    match telegramSend with
    | Except.ok _ => Except.ok ⟨discordDelivered, true, true⟩
    | Except.error _ => Except.ok ⟨discordDelivered, true, false⟩
  else Except.ok ⟨discordDelivered, false, false⟩

/-! ## HTML model and the two content extractors
(rss.py lines 42–62 and plugins/web_search.py lines 61–88) -/

/-- A parsed HTML document node: a text node (BeautifulSoup
`NavigableString`) or an element with a tag and children. -/
inductive Html where
  | text : String → Html
  | elem : String → List Html → Html

mutual

/-- `element.decompose()` applied to every descendant whose tag is in
`banned` (the `soup([...])` loop): `none` when the node itself is
removed. -/
def stripTag (banned : List String) : Html → Option Html
  | Html.text s => some (Html.text s)
  | Html.elem t cs =>
      if banned.contains t then none else some (Html.elem t (stripTags banned cs))

/-- `stripTag` over a list of sibling nodes. -/
def stripTags (banned : List String) : List Html → List Html
  | [] => []
  | h :: hs =>
      match stripTag banned h with
      | some h2 => h2 :: stripTags banned hs
      | none => stripTags banned hs

end

mutual

/-- All text-node strings of a node, in document order (the strings that
`get_text` joins). -/
def getStrings1 : Html → List String
  | Html.text s => [s]
  | Html.elem _ cs => getStringsL cs

/-- All text-node strings under a list of sibling nodes, in document order. -/
def getStringsL : List Html → List String
  | [] => []
  | h :: hs => getStrings1 h ++ getStringsL hs

end

mutual

/-- `soup.find(tag)` restricted to one subtree: pre-order (document-order)
search for the first element with the given tag. -/
def findTag1 (t : String) : Html → Option Html
  | Html.text _ => none
  | Html.elem tg cs =>
      if tg = t then some (Html.elem tg cs) else findTagL t cs

/-- `soup.find(tag)` over a list of sibling subtrees, in document order. -/
def findTagL (t : String) : List Html → Option Html
  | [] => none
  | h :: hs =>
      match findTag1 t h with
      | some r => some r
      | none => findTagL t hs

end

/-- `node.get_text(separator="\n")`: all text-node strings joined by
newlines. -/
def getTextC (h : Html) : List Char :=
  joinSep '\n' ((getStrings1 h).map String.data)

/-- `soup.get_text(separator="\n")` for a whole document (list of
top-level nodes). -/
def getTextL (ns : List Html) : List Char :=
  joinSep '\n' ((getStringsL ns).map String.data)

/-- The line clean-up shared by both extractors:
`"\n".join(line.strip() for line in text.splitlines() if line.strip())`. -/
def cleanLines (text : List Char) : List Char :=
  joinSep '\n'
    (((splitLinesAux text []).map stripChars).filter (fun l => !l.isEmpty))

/-- The tag list decomposed by both extractors. -/
def bannedTags : List String :=
  ["script", "style", "header", "footer", "nav", "aside"]

/-- `fetch_web_summary` from rss.py (lines 42–62), success path (HTTP 200,
no exception), taking the parsed document: decomposes the banned tags,
then takes `soup.get_text(separator="\n")` of the **whole document** and
cleans up the lines.  No container is selected and no word cap is
applied. -/
def fetch_web_summary (doc : List Html) : String :=
  ⟨cleanLines (getTextL (stripTags bannedTags doc))⟩

/-- The word-count cap of `WebSearchPlugin.fetch_web_summary` (lines
82–83): `if len(text.split()) > limit: text = " ".join(text.split()[:limit])`. -/
def capWords (limit : Nat) (s : List Char) : List Char :=
  let w := wordsAux s []
  if limit < w.length then joinSep ' ' (w.take limit) else s

/-- `WebSearchPlugin.fetch_web_summary` from plugins/web_search.py (lines
61–88), success path, taking the parsed document: decomposes the banned
tags, picks `soup.find("article") or soup.find("main") or soup.body`
(`none` result when no such container exists), extracts and cleans that
container's text, and caps it at 3000 words. -/
def wsFetchWebSummary (doc : List Html) : Option String :=
  let stripped := stripTags bannedTags doc
  let container :=
    match findTagL "article" stripped with
    | some c => some c
    | none =>
        match findTagL "main" stripped with
        | some c => some c
        | none => findTagL "body" stripped
  match container with
  | none => none
  | some c => some ⟨capWords 3000 (cleanLines (getTextC c))⟩

/-! ## Reconstruction predicates for the `split_message` chunk invariant -/

/-- The spec's reading of the chunk-concatenation invariant: the original
text is the chunks in order with only whitespace that was **leading**
whitespace of a remainder inserted between consecutive chunks. -/
def reconLead : List (List Char) → List Char → Prop
  | [], s => s = []
  | [c], s => s = c
  | c :: cs, s =>
      ∃ w rest, w.all Char.isWhitespace = true ∧ reconLead cs rest ∧
        s = c ++ w ++ rest

/-- The invariant `split_message` actually maintains: between consecutive
chunks some whitespace (the leading part of the stripped remainder) may be
dropped, and after the remaining chunks some whitespace (the trailing part
of a stripped remainder) may be dropped as well. -/
def reconTrim : List (List Char) → List Char → Prop
  | [], s => s = []
  | [c], s => s = c
  | c :: cs, s =>
      ∃ w rest t, w.all Char.isWhitespace = true ∧ t.all Char.isWhitespace = true ∧
        reconTrim cs rest ∧ s = c ++ w ++ (rest ++ t)

/-- The selection test of the `poll_feeds` entry loop, as a predicate:
an entry is handed to `process_entry` iff it has a `published_parsed`
timestamp and that timestamp is strictly greater than `last_ts`. -/
def entryIsNew (last_ts : Int) (e : Entry) : Bool :=
  match e.published with
  | none => false
  | some ts => decide (last_ts < ts)

/-! ## Lemmas about the `split_message` loop -/

theorem rfindAux_spec (s : List Char) (c : Char) :
    ∀ m i, rfindAux s c m = some i → i < m ∧ s.get? i = some c := by
  intro m
  induction m with
  | zero => intro i h; simp [rfindAux] at h
  | succ k ih =>
      intro i h
      rw [rfindAux] at h
      by_cases hc : s.get? k = some c
      · rw [if_pos hc] at h
        cases h
        exact ⟨Nat.lt_succ_self k, hc⟩
      · rw [if_neg hc] at h
        obtain ⟨h1, h2⟩ := ih i h
        exact ⟨Nat.lt_succ_of_lt h1, h2⟩

theorem splitPoint_le (s : List Char) (n : Nat) : splitPoint s n ≤ n := by
  simp only [splitPoint, rfindIdx]
  have hmin : min n s.length ≤ n := Nat.min_le_left n s.length
  cases h1 : rfindAux s '\n' (min n s.length) with
  | some p =>
      have hp := (rfindAux_spec s '\n' _ p h1).1
      show p ≤ n
      omega
  | none =>
      cases h2 : rfindAux s ' ' (min n s.length) with
      | some p =>
          have hp := (rfindAux_spec s ' ' _ p h2).1
          show p ≤ n
          omega
      | none => exact Nat.le_refl n

theorem splitPoint_eq_zero_head_ws (s : List Char) (n : Nat) (hn : 1 ≤ n)
    (h : splitPoint s n = 0) :
    ∃ c, s.get? 0 = some c ∧ c.isWhitespace = true := by
  simp only [splitPoint, rfindIdx] at h
  cases h1 : rfindAux s '\n' (min n s.length) with
  | some p =>
      rw [h1] at h
      have hp : p = 0 := h
      subst hp
      exact ⟨'\n', (rfindAux_spec s '\n' _ 0 h1).2, by decide⟩
  | none =>
      rw [h1] at h
      cases h2 : rfindAux s ' ' (min n s.length) with
      | some p =>
          rw [h2] at h
          have hp : p = 0 := h
          subst hp
          exact ⟨' ', (rfindAux_spec s ' ' _ 0 h2).2, by decide⟩
      | none =>
          rw [h2] at h
          have hz : n = 0 := h
          omega

theorem stripChars_length_le (u : List Char) : (stripChars u).length ≤ u.length := by
  have h1 : ((u.dropWhile Char.isWhitespace).reverse.dropWhile Char.isWhitespace).length
      ≤ (u.dropWhile Char.isWhitespace).reverse.length :=
    (List.dropWhile_sublist Char.isWhitespace).length_le
  have h2 : (u.dropWhile Char.isWhitespace).length ≤ u.length :=
    (List.dropWhile_sublist Char.isWhitespace).length_le
  simp only [stripChars, List.length_reverse] at *
  omega

theorem stripChars_cons_ws_length (c : Char) (t : List Char)
    (hc : c.isWhitespace = true) : (stripChars (c :: t)).length ≤ t.length := by
  have hdrop : (c :: t).dropWhile Char.isWhitespace = t.dropWhile Char.isWhitespace := by
    simp [List.dropWhile_cons, hc]
  have h1 : ((t.dropWhile Char.isWhitespace).reverse.dropWhile Char.isWhitespace).length
      ≤ (t.dropWhile Char.isWhitespace).reverse.length :=
    (List.dropWhile_sublist Char.isWhitespace).length_le
  have h2 : (t.dropWhile Char.isWhitespace).length ≤ t.length :=
    (List.dropWhile_sublist Char.isWhitespace).length_le
  simp only [stripChars, hdrop, List.length_reverse] at *
  omega

theorem strip_drop_lt (s : List Char) (n : Nat) (hn : 1 ≤ n) (hl : n < s.length) :
    (stripChars (s.drop (splitPoint s n))).length < s.length := by
  by_cases hp : splitPoint s n = 0
  · obtain ⟨c, hc, hw⟩ := splitPoint_eq_zero_head_ws s n hn hp
    cases s with
    | nil => simp at hl
    | cons a t =>
        rw [hp]
        simp only [List.drop_zero]
        have ha : a = c := by simpa using hc
        have hb := stripChars_cons_ws_length a t (by rw [ha]; exact hw)
        simp only [List.length_cons]
        omega
  · have h1 : (s.drop (splitPoint s n)).length = s.length - splitPoint s n :=
      List.length_drop _ _
    have h2 := stripChars_length_le (s.drop (splitPoint s n))
    omega

theorem splitCore_isSome : ∀ (fuel : Nat) (s : List Char) (n : Nat),
    1 ≤ n → s.length < fuel → (splitCore fuel s n).isSome = true := by
  intro fuel
  induction fuel with
  | zero => intro s n _ h; omega
  | succ f ih =>
      intro s n hn hl
      rw [splitCore]
      by_cases hcond : n < s.length
      · rw [if_pos hcond]
        have hlt := strip_drop_lt s n hn hcond
        have hs := ih (stripChars (s.drop (splitPoint s n))) n hn (by omega)
        cases hres : splitCore f (stripChars (s.drop (splitPoint s n))) n with
        | some parts => simp
        | none => rw [hres] at hs; simp at hs
      · rw [if_neg hcond]; simp

theorem splitCore_ne_nil : ∀ (fuel : Nat) (s : List Char) (n : Nat)
    (parts : List (List Char)), splitCore fuel s n = some parts → parts ≠ [] := by
  intro fuel s n parts h
  cases fuel with
  | zero => simp [splitCore] at h
  | succ f =>
      rw [splitCore] at h
      by_cases hcond : n < s.length
      · rw [if_pos hcond] at h
        cases hres : splitCore f (stripChars (s.drop (splitPoint s n))) n with
        | some ps => rw [hres] at h; cases h; simp
        | none => rw [hres] at h; simp at h
      · rw [if_neg hcond] at h
        cases h
        simp

theorem splitCore_chunk_le : ∀ (fuel : Nat) (s : List Char) (n : Nat)
    (parts : List (List Char)), splitCore fuel s n = some parts →
    ∀ c ∈ parts, c.length ≤ n := by
  intro fuel
  induction fuel with
  | zero => intro s n parts h; simp [splitCore] at h
  | succ f ih =>
      intro s n parts h
      rw [splitCore] at h
      by_cases hcond : n < s.length
      · rw [if_pos hcond] at h
        cases hres : splitCore f (stripChars (s.drop (splitPoint s n))) n with
        | some ps =>
            rw [hres] at h
            cases h
            intro c hc
            rcases List.mem_cons.mp hc with hceq | hmem
            · subst hceq
              have h1 : (s.take (splitPoint s n)).length = min (splitPoint s n) s.length :=
                List.length_take _ _
              have h2 := splitPoint_le s n
              omega
            · exact ih _ _ _ hres c hmem
        | none => rw [hres] at h; simp at h
      · rw [if_neg hcond] at h
        cases h
        intro c hc
        simp at hc
        subst hc
        omega

theorem stripChars_decomp (u : List Char) :
    ∃ w t, w.all Char.isWhitespace = true ∧ t.all Char.isWhitespace = true ∧
      u = w ++ stripChars u ++ t := by
  refine ⟨u.takeWhile Char.isWhitespace,
    ((u.dropWhile Char.isWhitespace).reverse.takeWhile Char.isWhitespace).reverse,
    ?_, ?_, ?_⟩
  · exact List.all_eq_true.mpr fun x hx => List.mem_takeWhile_imp hx
  · refine List.all_eq_true.mpr fun x hx => ?_
    rw [List.mem_reverse] at hx
    exact List.mem_takeWhile_imp hx
  · have h3 : u.dropWhile Char.isWhitespace =
        stripChars u ++
          ((u.dropWhile Char.isWhitespace).reverse.takeWhile Char.isWhitespace).reverse := by
      have h2 : (u.dropWhile Char.isWhitespace).reverse =
          (u.dropWhile Char.isWhitespace).reverse.takeWhile Char.isWhitespace ++
            (u.dropWhile Char.isWhitespace).reverse.dropWhile Char.isWhitespace :=
        (List.takeWhile_append_dropWhile Char.isWhitespace _).symm
      have h4 := congrArg List.reverse h2
      rw [List.reverse_reverse, List.reverse_append] at h4
      exact h4
    rw [List.append_assoc, ← h3]
    exact (List.takeWhile_append_dropWhile Char.isWhitespace u).symm

theorem splitCore_reconTrim : ∀ (fuel : Nat) (s : List Char) (n : Nat)
    (parts : List (List Char)), splitCore fuel s n = some parts →
    reconTrim parts s := by
  intro fuel
  induction fuel with
  | zero => intro s n parts h; simp [splitCore] at h
  | succ f ih =>
      intro s n parts h
      rw [splitCore] at h
      by_cases hcond : n < s.length
      · rw [if_pos hcond] at h
        cases hres : splitCore f (stripChars (s.drop (splitPoint s n))) n with
        | some ps =>
            rw [hres] at h
            cases h
            have hrec := ih _ _ _ hres
            have hne := splitCore_ne_nil f _ n ps hres
            obtain ⟨w, t, hw, ht, hdecomp⟩ := stripChars_decomp (s.drop (splitPoint s n))
            cases ps with
            | nil => exact absurd rfl hne
            | cons p0 prest =>
                refine ⟨w, stripChars (s.drop (splitPoint s n)), t, hw, ht, hrec, ?_⟩
                conv_lhs => rw [← List.take_append_drop (splitPoint s n) s]
                generalize hgen : stripChars (s.drop (splitPoint s n)) = r at hdecomp
                rw [hdecomp]
                simp [List.append_assoc]
        | none => rw [hres] at h; simp at h
      · rw [if_neg hcond] at h
        cases h
        exact rfl

/-! ## Claim theorems about `split_message` -/

/-- C7: for every text and chunk size `n ≥ 1`, every chunk returned by
`split_message(text, n)` has length at most `n`, and a text of length at
most `n` yields exactly one chunk equal to the text itself. -/
theorem split_message_chunk_bounds (s : List Char) (n : Nat) (hn : 1 ≤ n) :
    (∀ c ∈ split_message s n, c.length ≤ n) ∧
      (s.length ≤ n → split_message s n = [s]) := by
  constructor
  · intro c hc
    have hs := splitCore_isSome (s.length + 1) s n hn (by omega)
    cases hres : splitCore (s.length + 1) s n with
    | none => rw [hres] at hs; simp at hs
    | some parts =>
        rw [split_message, hres] at hc
        exact splitCore_chunk_le _ _ _ _ hres c hc
  · intro hle
    rw [split_message, splitCore]
    rw [if_neg (by omega)]
    rfl

/-- Witness for `split_message_chunk_bounds` at a concrete input. -/
theorem split_message_chunk_bounds_witness :
    (∀ c ∈ split_message "hello world example".data 7, c.length ≤ 7) ∧
      (("hello world example".data).length ≤ 7 →
        split_message "hello world example".data 7 = ["hello world example".data]) :=
  split_message_chunk_bounds "hello world example".data 7 (by decide)

/-- C10: for every input and every chunk size `n ≥ 1`, the
`split_message` loop terminates (its fuel `s.length + 1` is never
exhausted) and the result is a non-empty list of chunks. -/
theorem split_message_terminates_nonempty (s : List Char) (n : Nat) (hn : 1 ≤ n) :
    (splitCore (s.length + 1) s n).isSome = true ∧ split_message s n ≠ [] := by
  have hs := splitCore_isSome (s.length + 1) s n hn (by omega)
  refine ⟨hs, ?_⟩
  cases hres : splitCore (s.length + 1) s n with
  | none => rw [hres] at hs; simp at hs
  | some parts =>
      rw [split_message, hres]
      exact splitCore_ne_nil _ _ _ _ hres

/-- Witness for `split_message_terminates_nonempty` at a concrete input. -/
theorem split_message_terminates_nonempty_witness :
    (splitCore ("a\nb c".data.length + 1) "a\nb c".data 2).isSome = true ∧
      split_message "a\nb c".data 2 ≠ [] :=
  split_message_terminates_nonempty "a\nb c".data 2 (by decide)

/-- C8 counterexample: `split_message("ab c ", 2)` returns `["ab", "c"]`,
and the original text is *not* reconstructed by re-inserting only leading
whitespace between chunks — the trailing whitespace stripped from the
remainder (`" c "` → `"c"`) is also lost. -/
theorem split_message_loses_trailing_whitespace :
    split_message "ab c ".data 2 = ["ab".data, "c".data] ∧
      ¬ reconLead (split_message "ab c ".data 2) "ab c ".data := by
  have hsplit : split_message "ab c ".data 2 = ["ab".data, "c".data] := by decide
  refine ⟨hsplit, ?_⟩
  intro hre
  rw [hsplit] at hre
  simp only [reconLead] at hre
  obtain ⟨w, rest, hw, hrest, heq⟩ := hre
  subst hrest
  have h1 : (['a', 'b', ' ', 'c', ' '] : List Char).getLast? = some ' ' := by decide
  rw [heq] at h1
  rw [List.getLast?_append_of_ne_nil] at h1
  · exact absurd h1 (by decide)
  · decide

/-- C8 amended: concatenating the chunks of `split_message(text, n)`
(`n ≥ 1`) reconstructs the original text up to whitespace dropped at each
split — both the leading whitespace and the trailing whitespace that
`strip()` removes from the remainder. -/
theorem split_message_reconstructs_with_trim (s : List Char) (n : Nat)
    (hn : 1 ≤ n) : reconTrim (split_message s n) s := by
  have hs := splitCore_isSome (s.length + 1) s n hn (by omega)
  cases hres : splitCore (s.length + 1) s n with
  | none => rw [hres] at hs; simp at hs
  | some parts =>
      rw [split_message, hres]
      exact splitCore_reconTrim _ _ _ _ hres

/-- Witness for `split_message_reconstructs_with_trim` at a concrete input. -/
theorem split_message_reconstructs_with_trim_witness :
    reconTrim (split_message "hello world".data 4) "hello world".data :=
  split_message_reconstructs_with_trim "hello world".data 4 (by decide)

/-! ## Lemmas about the `poll_feeds` entry loop -/

theorem pollStep_foldl_fst (last_ts : Int) :
    ∀ (l : List Entry) (acc : List Entry × Int),
      (l.foldl (pollStepF last_ts) acc).1 = acc.1 ++ l.filter (entryIsNew last_ts) := by
  intro l
  induction l with
  | nil => intro acc; simp
  | cons e t ih =>
      intro acc
      cases hp : e.published with
      | none =>
          have hstep : pollStepF last_ts acc e = acc := by simp [pollStepF, hp]
          have hnew : entryIsNew last_ts e = false := by simp [entryIsNew, hp]
          rw [List.foldl_cons, hstep, ih]
          simp [List.filter_cons, hnew]
      | some ts =>
          by_cases hlt : last_ts < ts
          · have hstep : pollStepF last_ts acc e =
                (acc.1 ++ [e], if acc.2 < ts then ts else acc.2) := by
              simp [pollStepF, hp, hlt]
            have hnew : entryIsNew last_ts e = true := by
              simp [entryIsNew, hp, hlt]
            rw [List.foldl_cons, hstep, ih]
            simp [List.filter_cons, hnew, List.append_assoc]
          · have hstep : pollStepF last_ts acc e = acc := by simp [pollStepF, hp, hlt]
            have hnew : entryIsNew last_ts e = false := by
              simp [entryIsNew, hp, hlt]
            rw [List.foldl_cons, hstep, ih]
            simp [List.filter_cons, hnew]

theorem pollStep_foldl_snd_mono (last_ts : Int) :
    ∀ (l : List Entry) (acc : List Entry × Int),
      acc.2 ≤ (l.foldl (pollStepF last_ts) acc).2 := by
  intro l
  induction l with
  | nil => intro acc; simp
  | cons e t ih =>
      intro acc
      rw [List.foldl_cons]
      refine le_trans ?_ (ih (pollStepF last_ts acc e))
      cases hp : e.published with
      | none => simp [pollStepF, hp]
      | some ts =>
          by_cases hlt : last_ts < ts
          · simp only [pollStepF, hp]
            rw [if_pos hlt]
            by_cases h2 : acc.2 < ts
            · rw [if_pos h2]; exact le_of_lt h2
            · rw [if_neg h2]
          · simp [pollStepF, hp, hlt]

theorem pollFeedStep_fst (last_ts : Int) (es : List Entry) :
    (pollFeedStep last_ts es).1 = (sorted_entries es).filter (entryIsNew last_ts) := by
  rw [pollFeedStep, pollStep_foldl_fst]
  simp

theorem pollFeedStep_le_snd (last_ts : Int) (es : List Entry) :
    last_ts ≤ (pollFeedStep last_ts es).2 :=
  pollStep_foldl_snd_mono last_ts (sorted_entries es) ([], last_ts)

/-! ## Claim theorems about `poll_feeds` and the feed store -/

/-- C1: during a feed's pass, `process_entry` is called only for entries
with a known published timestamp strictly greater than the watermark read
at the start of that pass; entries at or below the watermark, or with an
unknown timestamp, are never handed on. -/
theorem poll_only_strictly_newer_entries (last_ts : Int) (es : List Entry)
    (e : Entry) (h : e ∈ (pollFeedStep last_ts es).1) :
    ∃ ts, e.published = some ts ∧ last_ts < ts := by
  rw [pollFeedStep_fst] at h
  have hp := List.of_mem_filter h
  cases hpub : e.published with
  | none => simp [entryIsNew, hpub] at hp
  | some ts =>
      simp only [entryIsNew, hpub, decide_eq_true_eq] at hp
      exact ⟨ts, rfl, hp⟩

/-- Witness for `poll_only_strictly_newer_entries` at a concrete input. -/
theorem poll_only_strictly_newer_entries_witness :
    ∃ ts, (Entry.mk "t" "l" (some 5)).published = some ts ∧ (0 : Int) < ts :=
  poll_only_strictly_newer_entries 0 [Entry.mk "t" "l" (some 5)]
    (Entry.mk "t" "l" (some 5)) (by decide)

/-- C4: within one feed's pass, the entries handed to `process_entry`
appear in non-decreasing order of published timestamp (the loop runs over
the feed's entries sorted ascending by the publish-time key). -/
theorem poll_processes_in_timestamp_order (last_ts : Int) (es : List Entry) :
    ((pollFeedStep last_ts es).1).Pairwise
      (fun a b => a.published.getD 0 ≤ b.published.getD 0) := by
  rw [pollFeedStep_fst]
  have hs : (sorted_entries es).Pairwise entryLe :=
    List.sorted_insertionSort entryLe es
  have hf : (List.filter (entryIsNew last_ts) (sorted_entries es)).Pairwise entryLe :=
    hs.sublist (List.filter_sublist (sorted_entries es))
  exact hf.imp (fun hab => hab)

/-- C2 counterexample: calling `add_feed` again for an already-watched
url overwrites the stored watermark unconditionally, and the new value
can be strictly smaller — first `add_feed` stores 1000 (the feed's max
entry timestamp), a second `add_feed` for the same url (no removal in
between) overwrites it with 500. -/
theorem add_feed_decreases_watermark :
    (add_feed (fun _ => none) "u"
        (ParsedFeed.mk false none [Entry.mk "a" "l1" (some 1000)]) 0).2 "u"
      = some 1000 ∧
    (add_feed
        (add_feed (fun _ => none) "u"
          (ParsedFeed.mk false none [Entry.mk "a" "l1" (some 1000)]) 0).2
        "u" (ParsedFeed.mk false none [Entry.mk "b" "l2" (some 500)]) 0).2 "u"
      = some 500 ∧
    (500 : Int) < 1000 := by
  refine ⟨by decide, by decide, by decide⟩

/-- C2 amended: the poll-cycle watermark write (`pollWrite`) never
overwrites a feed's stored timestamp with a strictly smaller value;
`add_feed`, by contrast, overwrites unconditionally and can decrease it. -/
theorem poll_write_monotone (st : Store) (url : String) (es : List Entry)
    (vold vnew : Int) (h1 : st url = some vold)
    (h2 : pollWrite st url es url = some vnew) : vold ≤ vnew := by
  simp only [pollWrite, h1] at h2
  by_cases hlt : vold < (pollFeedStep vold es).2
  · rw [if_pos hlt] at h2
    simp only [hset, if_pos rfl] at h2
    cases h2
    exact le_of_lt hlt
  · rw [if_neg hlt] at h2
    rw [h1] at h2
    cases h2
    exact le_refl vold

/-- Witness for `poll_write_monotone` at a concrete input. -/
theorem poll_write_monotone_witness :
    hset (fun _ => none) "u" 3 "u" = some 3 ∧ (3 : Int) ≤ 10 :=
  ⟨by decide,
    poll_write_monotone (hset (fun _ => none) "u" 3) "u"
      [Entry.mk "a" "l" (some 10)] 3 10 (by decide) (by decide)⟩

theorem addFold_eq : ∀ (l : List Entry) (acc : Int),
    l.foldl
      (fun last e =>
        match e.published with
        | some ts => if last < ts then ts else last
        | none => last)
      acc
      = (l.filterMap Entry.published).foldl max acc := by
  intro l
  induction l with
  | nil => intro acc; simp
  | cons e t ih =>
      intro acc
      cases hp : e.published with
      | none =>
          rw [List.foldl_cons, List.filterMap_cons]
          simp only [hp]
          exact ih acc
      | some ts =>
          rw [List.foldl_cons, List.filterMap_cons]
          simp only [hp, List.foldl_cons]
          rw [ih]
          congr 1
          rcases lt_or_le acc ts with h | h
          · rw [if_pos h, max_eq_right h.le]
          · rw [if_neg (not_lt.mpr h), max_eq_left h]

/-- C3 counterexample: a feed that parses successfully and has entries,
none of which carries a published timestamp — `add_feed` stores `0.0`
as the initial watermark, not the current wall-clock time (999 here). -/
theorem add_feed_no_timestamp_entries_stores_zero :
    (add_feed (fun _ => none) "u"
        (ParsedFeed.mk false none [Entry.mk "t" "l" none]) 999).2 "u" = some 0 ∧
      (0 : Int) ≠ 999 := by
  refine ⟨by decide, by decide⟩

/-- C3 amended: for every feed whose document parses successfully,
`add_feed` returns true and stores, as the feed's initial watermark, the
maximum of `0` and the published timestamps present among the feed's
entries when the entry list is non-empty; the current wall-clock time is
stored only when the entry list is empty (in particular, a non-empty
feed none of whose entries has a timestamp gets watermark `0`). -/
theorem add_feed_initial_watermark (st : Store) (url : String)
    (feed : ParsedFeed) (now : Int) (h : feed.bozo = false) :
    (add_feed st url feed now).1 = true ∧
      (add_feed st url feed now).2 url =
        some (if feed.entries.isEmpty then now
              else (feed.entries.filterMap Entry.published).foldl max 0) := by
  rw [add_feed, h]
  refine ⟨rfl, ?_⟩
  show hset st url (addFeedTs now feed.entries) url = _
  have hs : hset st url (addFeedTs now feed.entries) url
      = some (addFeedTs now feed.entries) := by simp [hset]
  rw [hs, addFeedTs]
  by_cases hl : feed.entries.isEmpty
  · rw [if_pos hl, if_pos hl]
  · rw [if_neg hl, if_neg hl, addFold_eq]

/-- Witness for `add_feed_initial_watermark` at a concrete input. -/
theorem add_feed_initial_watermark_witness :
    (add_feed (fun _ => none) "u"
        (ParsedFeed.mk false none
          [Entry.mk "a" "l1" (some 7), Entry.mk "b" "l2" none,
            Entry.mk "c" "l3" (some 4)]) 99).1 = true ∧
      (add_feed (fun _ => none) "u"
          (ParsedFeed.mk false none
            [Entry.mk "a" "l1" (some 7), Entry.mk "b" "l2" none,
              Entry.mk "c" "l3" (some 4)]) 99).2 "u" =
        some (if ([Entry.mk "a" "l1" (some 7), Entry.mk "b" "l2" none,
              Entry.mk "c" "l3" (some 4)] : List Entry).isEmpty then 99
          else (([Entry.mk "a" "l1" (some 7), Entry.mk "b" "l2" none,
              Entry.mk "c" "l3" (some 4)] : List Entry).filterMap
                Entry.published).foldl max 0) :=
  add_feed_initial_watermark (fun _ => none) "u"
    (ParsedFeed.mk false none
      [Entry.mk "a" "l1" (some 7), Entry.mk "b" "l2" none,
        Entry.mk "c" "l3" (some 4)]) 99 rfl

/-- C5 counterexample: when the summarizer raises, `process_entry` does
not use a fixed failure string — the chosen text interpolates the
exception message, so two different exceptions give two different
announcement bodies. -/
theorem summarizer_raise_string_not_fixed :
    (summarySelect (some "article body") (Except.error "boom")).1
      = "Error summarizing article: boom" ∧
    (summarySelect (some "article body") (Except.error "crash")).1
      = "Error summarizing article: crash" ∧
    ("Error summarizing article: boom" : String)
      ≠ "Error summarizing article: crash" := by
  refine ⟨by decide, by decide, by decide⟩

/-- C5 amended: if extraction returns null (or, per Python falsiness, the
empty string) the fixed fallback string is used and the summarizer is
never invoked; if the summarizer is invoked and raises, an error string
containing the exception message is used; if it returns text that strips
to empty, a fixed failure string is used; otherwise its output, stripped
of surrounding whitespace, is used. -/
theorem summary_selection_spec (article_text : Option String)
    (summarizer : Except String String) :
    ((article_text = none ∨ article_text = some "") →
      summarySelect article_text summarizer
        = ("Could not retrieve a summary for this article.", false)) ∧
    (∀ a, article_text = some a → a ≠ "" →
      (∀ e, summarizer = Except.error e →
        summarySelect article_text summarizer
          = ("Error summarizing article: " ++ e, true)) ∧
      (∀ c, summarizer = Except.ok c → pyStrip c = "" →
        summarySelect article_text summarizer
          = ("Failed to generate a summary from the article.", true)) ∧
      (∀ c, summarizer = Except.ok c → pyStrip c ≠ "" →
        summarySelect article_text summarizer = (pyStrip c, true))) := by
  constructor
  · rintro (h | h) <;> subst h <;> simp [summarySelect]
  · rintro a rfl ha
    refine ⟨?_, ?_, ?_⟩
    · rintro e rfl
      simp [summarySelect, ha]
    · rintro c rfl hc
      simp [summarySelect, ha, hc]
    · rintro c rfl hc
      simp [summarySelect, ha, hc]

/-- Witness for `summary_selection_spec` at a concrete input. -/
theorem summary_selection_spec_witness :
    summarySelect (some "body") (Except.ok " A summary. ")
      = ("A summary.", true) := by
  have h := ((summary_selection_spec (some "body")
      (Except.ok " A summary. ")).2 "body" rfl (by decide)).2.2
    " A summary. " rfl (by decide)
  rw [h]
  decide

/-- C9: a sink failure is caught inside the delivery step — `deliver`
always returns normally (no exception escapes into the poll loop), a
chat-channel failure does not change whether the secondary notifier is
attempted, and a feed body that raises leaves the store unchanged while
the remaining feeds of the cycle are still processed. -/
theorem sink_failures_isolated (e : String) (channelFound telegramOn : Bool)
    (discordSend telegramSend : Except String Unit) :
    (∃ tr, deliver channelFound discordSend telegramOn telegramSend
        = Except.ok tr ∧ tr.telegramAttempted = telegramOn) ∧
    ((deliver channelFound (Except.error e) telegramOn telegramSend).map
        DeliveryTrace.telegramAttempted
      = (deliver channelFound (Except.ok ()) telegramOn telegramSend).map
        DeliveryTrace.telegramAttempted) ∧
    (∀ (st : Store) (u : String) (lt : Int) (rest : List (String × Int))
        (body : Store → String → Int → Except String Store),
      body st u lt = Except.error e →
      pollCycle st ((u, lt) :: rest) body = pollCycle st rest body) := by
  refine ⟨?_, ?_, ?_⟩
  · cases telegramOn with
    | true =>
        cases telegramSend with
        | ok v => exact ⟨_, rfl, rfl⟩
        | error msg => exact ⟨_, rfl, rfl⟩
    | false => exact ⟨_, rfl, rfl⟩
  · cases telegramOn <;> cases telegramSend <;> rfl
  · intro st u lt rest body hbody
    simp only [pollCycle, List.foldl_cons, hbody]

/-- Witness for `sink_failures_isolated` at concrete inputs. -/
theorem sink_failures_isolated_witness :
    (∃ tr, deliver true (Except.error "boom") true (Except.ok ())
        = Except.ok tr ∧ tr.telegramAttempted = true) ∧
    pollCycle (fun _ => none) [("a", 1), ("b", 2)]
        (fun st u _ => if u = "a" then Except.error "boom" else Except.ok st)
      = pollCycle (fun _ => none) [("b", 2)]
        (fun st u _ => if u = "a" then Except.error "boom" else Except.ok st) := by
  have h := sink_failures_isolated "boom" true true
    (Except.error "boom") (Except.ok ())
  exact ⟨h.1, h.2.2 (fun _ => none) "a" 1 [("b", 2)]
    (fun st u _ => if u = "a" then Except.error "boom" else Except.ok st) rfl⟩

/-- C6 counterexample: on a page whose body holds an article element plus
text outside it, the RSS pipeline's extractor (`fetch_web_summary` in
rss.py) returns the whole document's text, not the text of the first
semantic container as the claim states; the web-search plugin's
extractor does return just the article's text. -/
theorem rss_extractor_ignores_container :
    fetch_web_summary
        [Html.elem "body" [Html.elem "article" [Html.text "inside"],
          Html.text "outside"]]
      = "inside\noutside" ∧
    wsFetchWebSummary
        [Html.elem "body" [Html.elem "article" [Html.text "inside"],
          Html.text "outside"]]
      = some "inside" ∧
    ("inside\noutside" : String) ≠ "inside" := by
  refine ⟨by decide, by decide, by decide⟩

/-- C6 amended: the semantic-container preference (article, then main,
then body) and the 3000-word cap are behaviour of the web-search
plugin's extractor; the RSS pipeline's extractor takes the whole
document's cleaned text with no container preference and no word cap. -/
theorem web_search_extractor_container_and_cap (doc : List Html) :
    (∀ a, findTagL "article" (stripTags bannedTags doc) = some a →
      wsFetchWebSummary doc
        = some ⟨capWords 3000 (cleanLines (getTextC a))⟩) ∧
    (∀ m, findTagL "article" (stripTags bannedTags doc) = none →
      findTagL "main" (stripTags bannedTags doc) = some m →
      wsFetchWebSummary doc
        = some ⟨capWords 3000 (cleanLines (getTextC m))⟩) ∧
    (∀ b, findTagL "article" (stripTags bannedTags doc) = none →
      findTagL "main" (stripTags bannedTags doc) = none →
      findTagL "body" (stripTags bannedTags doc) = some b →
      wsFetchWebSummary doc
        = some ⟨capWords 3000 (cleanLines (getTextC b))⟩) := by
  refine ⟨?_, ?_, ?_⟩
  · intro a ha
    simp [wsFetchWebSummary, ha]
  · intro m ha hm
    simp [wsFetchWebSummary, ha, hm]
  · intro b ha hm hb
    simp [wsFetchWebSummary, ha, hm, hb]

/-- Witness for `web_search_extractor_container_and_cap` at a concrete
document. -/
theorem web_search_extractor_container_and_cap_witness :
    wsFetchWebSummary
        [Html.elem "main" [Html.text " m "],
          Html.elem "article" [Html.text "the article text"]]
      = some ⟨capWords 3000 (cleanLines (getTextC
          (Html.elem "article" [Html.text "the article text"])))⟩ :=
  (web_search_extractor_container_and_cap
      [Html.elem "main" [Html.text " m "],
        Html.elem "article" [Html.text "the article text"]]).1
    (Html.elem "article" [Html.text "the article text"]) rfl
